import Mathlib

/-!
Formal model of the browser to-do list in src/script.js, and proofs of the
specification's claims about its task store.

Modelling conventions:

* A task record `{ text, completed, createdAt }` becomes the structure `Task`.
  `createdAt` (an ISO timestamp string in the source) is an opaque string; the
  current time is passed to `addTask` as an explicit `now` argument.
* The in-memory `tasks` array is a `List TaskV`.  `TaskV` has a second
  constructor `undefined` because `handleDrop` can insert the JavaScript value
  `undefined` into the array (splicing with an out-of-range source index
  yields `undefined` for the moved element); every other handler only ever
  stores task records.
* `JSON.parse` / `JSON.stringify` are host primitives, not repository code.
  They are modelled at the JSON-value level: `JValue` is the JSON value tree,
  and a persisted string blob is classified by parseability as `Blob.json v`
  (a string that `JSON.parse` reads back as `v`) or `Blob.garbage s` (a string
  on which `JSON.parse` throws).  `JSON.stringify` of a task array always
  produces a parseable string, hence `Blob.json` applied to the array's value
  tree; `undefined` array elements stringify as JSON `null`.
* `localStorage` is the `stored : Option Blob` field of `St` (`none` when the
  key is absent).  A write failure (quota exceeded) is modelled by the
  `quotaFull` flag passed to each handler; `setItem` throws exactly when it is
  set.  Each handler returns an `Outcome`: the new state, whether the
  `saveTasks`/`setItem` step was reached, and whether an exception propagated
  out of the handler.
* JavaScript `String.prototype.trim` is modelled by `jsTrim`, which strips
  leading and trailing whitespace characters (the ASCII whitespace class; the
  source and the spec use trimming consistently, so the exact character class
  does not affect any claim).
-/

namespace Todo

/-- Task record of src/script.js line 14: `{ text, completed, createdAt }`. -/
structure Task where
  text : String
  completed : Bool
  createdAt : String
deriving DecidableEq

/-- An element of the in-memory `tasks` array: normally a task record, but
`handleDrop` can splice the JavaScript value `undefined` into the array. -/
inductive TaskV where
  | task : Task → TaskV
  | undefined : TaskV
deriving DecidableEq

/-- View a list of task records as an array of task values. -/
def toV (l : List Task) : List TaskV := l.map TaskV.task

/-- JSON value trees, the codomain of the host `JSON.parse`. -/
inductive JValue where
  | null : JValue
  | bool : Bool → JValue
  | num : Int → JValue
  | str : String → JValue
  | arr : List JValue → JValue
  | obj : List (String × JValue) → JValue

/-- A persisted string blob, classified by how the host `JSON.parse` treats
it: `json v` stands for a string parsed as the value `v`, `garbage s` for a
string on which `JSON.parse` throws a syntax error. -/
inductive Blob where
  | json : JValue → Blob
  | garbage : String → Blob

/-- Host `JSON.parse` on a blob: succeeds exactly on syntactically valid
JSON, returning its value tree. -/
def JSONparse : Blob → Option JValue
  | .json v => some v
  | .garbage _ => none

/-- JSON encoding of one task record, with the field order of the object
literal at src/script.js lines 179-183. -/
def taskToJson (t : Task) : JValue :=
  .obj [("text", .str t.text), ("completed", .bool t.completed),
        ("createdAt", .str t.createdAt)]

/-- JSON encoding of one array element; `JSON.stringify` turns an
`undefined` array element into JSON `null`. -/
def taskVToJson : TaskV → JValue
  | .task t => taskToJson t
  | .undefined => .null

/-- JSON value of the whole `tasks` array. -/
def tasksToJson (l : List TaskV) : JValue := .arr (l.map taskVToJson)

/-- Host `JSON.stringify` on the `tasks` array: always yields a parseable
string, whose parse is the array's value tree. -/
def JSONstringify (l : List TaskV) : Blob := .json (tasksToJson l)

/-- Whitespace class used by the model of JavaScript `trim` (the ASCII
whitespace characters: tab, line feed, vertical tab, form feed, carriage
return, space). -/
def jsWhitespace (c : Char) : Bool :=
  c == ' ' || c == '\t' || c == '\n' || c == '\r' ||
  c == Char.ofNat 11 || c == Char.ofNat 12

/-- Drop the longest suffix of elements satisfying `p` (the mirror image of
`List.dropWhile`), used to strip trailing whitespace. -/
def dropWhileEnd (p : α → Bool) : List α → List α
  | [] => []
  | a :: t =>
    match dropWhileEnd p t with
    | [] => if p a then [] else [a]
    | r => a :: r

/-- Model of JavaScript `String.prototype.trim`: strip leading and trailing
whitespace. -/
def jsTrim (s : String) : String :=
  ⟨dropWhileEnd jsWhitespace (s.data.dropWhile jsWhitespace)⟩

/-- Mutable state owned by the script: the in-memory `tasks` array and the
`tasks` entry of `localStorage` (`none` when absent). -/
structure St where
  tasks : List TaskV
  stored : Option Blob

/-- Result of running one event handler: the state afterwards, whether the
`saveTasks` (`localStorage.setItem`) step was reached, and whether an
exception propagated out of the handler. -/
structure Outcome where
  st : St
  saved : Bool
  err : Bool

/-- Function `saveTasks` (src/script.js lines 22-24):
`localStorage.setItem('tasks', JSON.stringify(tasks))`.  When the quota is
full, `setItem` throws and the stored blob is unchanged; the handler has no
try/catch, so the exception propagates. -/
def saveTasks (quotaFull : Bool) (st : St) : Outcome :=
  if quotaFull then ⟨st, true, true⟩
  else ⟨{ st with stored := some (JSONstringify st.tasks) }, true, false⟩

/-- Function `loadTasks` (src/script.js lines 29-36):
`tasks = stored ? JSON.parse(stored) : []` inside a try/catch whose catch
branch sets `tasks = []`.  The result is whatever JSON value the blob parses
to; only a missing blob or a parse error yields the empty array.  (An empty
stored string is falsy in the source and also unparseable, so both routes
give the empty array; the `Blob` model does not need to distinguish them.) -/
def loadTasks (stored : Option Blob) : JValue :=
  match stored with
  | none => .arr []
  | some b =>
    match JSONparse b with
    | some v => v
    | none => .arr []

/-- Function `addTask` (src/script.js lines 176-188): trim the input; do
nothing when the trimmed text is falsy (empty); otherwise push
`{ text, completed: false, createdAt: now }` and save. -/
def addTask (quotaFull : Bool) (now input : String) (st : St) : Outcome :=
  let text := jsTrim input
  if text = "" then ⟨st, false, false⟩
  else saveTasks quotaFull
    { st with tasks := st.tasks ++ [.task ⟨text, false, now⟩] }

/-- Remove-button click handler (src/script.js lines 112-116):
`tasks.splice(index, 1); saveTasks()`.  A splice at an index at or past the
end removes nothing, which is exactly `List.eraseIdx`. -/
def removeClick (quotaFull : Bool) (index : Nat) (st : St) : Outcome :=
  saveTasks quotaFull { st with tasks := st.tasks.eraseIdx index }

/-- Effect of the checkbox change handler on one array element:
`task.completed = checkbox.checked` (src/script.js line 57). -/
def setCompletedV (v : Bool) : TaskV → TaskV
  | .task t => .task { t with completed := v }
  | .undefined => .undefined

/-- Checkbox change handler (src/script.js lines 56-60): set `completed` on
the task at the row's index, then save. -/
def checkboxChange (quotaFull : Bool) (index : Nat) (v : Bool) (st : St) :
    Outcome :=
  saveTasks quotaFull { st with tasks := st.tasks.modify (setCompletedV v) index }

/-- Effect of an edit commit on one array element: `task.text = newText`
(src/script.js line 100). -/
def setTextV (s : String) : TaskV → TaskV
  | .task t => .task { t with text := s }
  | .undefined => .undefined

/-- Commit branch of the edit-button click handler (src/script.js lines
96-105): trim the edited text; when non-empty, write it to `task.text` and
save; when empty, change nothing and do not save (the handler still leaves
editing mode and re-renders). -/
def editCommit (quotaFull : Bool) (index : Nat) (raw : String) (st : St) :
    Outcome :=
  let newText := jsTrim raw
  if newText = "" then ⟨st, false, false⟩
  else saveTasks quotaFull
    { st with tasks := st.tasks.modify (setTextV newText) index }

/-- Function `handleDrop` (src/script.js lines 155-163): return when the
dragged index is null or equals the target; otherwise
`const [movedTask] = tasks.splice(draggedIndex, 1)` followed by
`tasks.splice(targetIndex, 0, movedTask)` and a save.  When `draggedIndex`
is at or past the end, the first splice removes nothing and `movedTask` is
`undefined`, which the second splice inserts; a splice insertion position is
clamped to the array length. -/
def handleDrop (quotaFull : Bool) (draggedIndex : Option Nat)
    (targetIndex : Nat) (st : St) : Outcome :=
  match draggedIndex with
  | none => ⟨st, false, false⟩
  | some d =>
    if d = targetIndex then ⟨st, false, false⟩
    else
      let rest := st.tasks.eraseIdx d
      let movedTask : TaskV :=
        match st.tasks[d]? with
        | some v => v
        | none => .undefined
      saveTasks quotaFull
        { st with tasks := rest.insertIdx (min targetIndex rest.length) movedTask }

/-- Function `deleteAllTasks` (src/script.js lines 193-197): `tasks = []`
then save. -/
def deleteAllTasks (quotaFull : Bool) (st : St) : Outcome :=
  saveTasks quotaFull { st with tasks := [] }

/-- The task store's mutating operations, in the spec's vocabulary; each is
dispatched to the handler in src/script.js that implements it. -/
inductive StoreOp where
  | add : (now input : String) → StoreOp
  | remove : Nat → StoreOp
  | setCompleted : Nat → Bool → StoreOp
  | editText : Nat → String → StoreOp
  | reorder : Option Nat → Nat → StoreOp
  | clearAll : StoreOp

/-- Run one mutating store operation through its handler. -/
def applyOp (quotaFull : Bool) : StoreOp → St → Outcome
  | .add now input => addTask quotaFull now input
  | .remove i => removeClick quotaFull i
  | .setCompleted i v => checkboxChange quotaFull i v
  | .editText i raw => editCommit quotaFull i raw
  | .reorder dragged target => handleDrop quotaFull dragged target
  | .clearAll => deleteAllTasks quotaFull

/-- Modelled from the spec: reading one record of the persisted task-list
encoding, "each with fields `text` (string), `completed` (boolean),
`createdAt` (string timestamp)" (spec section 6).  The source never decodes
the parsed value; this decoder is the spec's description of a valid
task-list encoding, used to compare what `loadTasks` yields with the list
that was persisted. -/
def decodeTask : JValue → Option Task
  | .obj [("text", .str s), ("completed", .bool b), ("createdAt", .str c)] =>
    some ⟨s, b, c⟩
  | _ => none

/-- Decode a list of JSON values as task records, failing if any element
fails. -/
def decodeTaskList : List JValue → Option (List Task)
  | [] => some []
  | v :: vs =>
    match decodeTask v, decodeTaskList vs with
    | some t, some ts => some (t :: ts)
    | _, _ => none

/-- Modelled from the spec: a JSON value is a valid task-list encoding
exactly when it is an array of task records; decode it to the task list. -/
def decodeTasks : JValue → Option (List Task)
  | .arr elems => decodeTaskList elems
  | _ => none

/-- Invariant of one array element: a task record's text does not trim to
empty (the `undefined` placeholder has no text field to constrain). -/
def taskVOk : TaskV → Bool
  | .task t => !(jsTrim t.text == "")
  | .undefined => true

/-- Data-model invariant (spec section 3): no task in the list has an
empty or whitespace-only text. -/
def invNoBlankV (l : List TaskV) : Bool := l.all taskVOk

/-- The same invariant over plain task records. -/
def invNoBlank (l : List Task) : Bool :=
  l.all fun t => !(jsTrim t.text == "")

/-- Unfolding lemma for `dropWhileEnd` on a cons cell. -/
theorem dropWhileEnd_cons (p : α → Bool) (a : α) (t : List α) :
    dropWhileEnd p (a :: t) =
      match dropWhileEnd p t with
      | [] => if p a then [] else [a]
      | r => a :: r := rfl

/-- Dropping a satisfying suffix twice is the same as dropping it once. -/
theorem dropWhileEnd_idem (p : α → Bool) (l : List α) :
    dropWhileEnd p (dropWhileEnd p l) = dropWhileEnd p l := by
  induction l with
  | nil => rfl
  | cons a t ih =>
    rw [dropWhileEnd_cons]
    cases heq : dropWhileEnd p t with
    | nil =>
      cases hpa : p a with
      | false => simp [dropWhileEnd, hpa]
      | true => simp [dropWhileEnd, hpa]
    | cons b r =>
      have h2 : dropWhileEnd p (b :: r) = b :: r := by rw [← heq]; exact ih
      rw [dropWhileEnd_cons, h2]

/-- Dropping a satisfying prefix twice is the same as dropping it once. -/
theorem dropWhile_idem (p : α → Bool) (l : List α) :
    (l.dropWhile p).dropWhile p = l.dropWhile p := by
  induction l with
  | nil => rfl
  | cons a t ih =>
    cases hpa : p a with
    | false => simp [List.dropWhile_cons, hpa]
    | true => simp [List.dropWhile_cons, hpa, ih]

/-- Dropping a trailing satisfying suffix cannot create a satisfying prefix. -/
theorem dropWhile_dropWhileEnd (p : α → Bool) (l : List α)
    (h : l.dropWhile p = l) :
    (dropWhileEnd p l).dropWhile p = dropWhileEnd p l := by
  cases l with
  | nil => rfl
  | cons a t =>
    have hpa : p a = false := by
      cases hpa : p a with
      | false => rfl
      | true =>
        exfalso
        rw [List.dropWhile_cons, if_pos (by simp [hpa])] at h
        have hle : (t.dropWhile p).length ≤ t.length :=
          (List.dropWhile_sublist p).length_le
        have := congrArg List.length h
        simp at this
        omega
    rw [dropWhileEnd_cons]
    cases heq : dropWhileEnd p t with
    | nil => simp [hpa, List.dropWhile_cons]
    | cons b r => simp [List.dropWhile_cons, hpa]

/-- Trimming is idempotent. -/
theorem jsTrim_idem (s : String) : jsTrim (jsTrim s) = jsTrim s := by
  have h : dropWhileEnd jsWhitespace
      ((dropWhileEnd jsWhitespace
        (s.data.dropWhile jsWhitespace)).dropWhile jsWhitespace)
      = dropWhileEnd jsWhitespace (s.data.dropWhile jsWhitespace) := by
    rw [dropWhile_dropWhileEnd _ _ (dropWhile_idem _ _), dropWhileEnd_idem]
  exact congrArg String.mk h

/-- Decoding the JSON encoding of a task record recovers the record. -/
theorem decodeTask_encode (t : Task) :
    decodeTask (taskVToJson (TaskV.task t)) = some t := rfl

/-- Decoding the element-wise JSON encoding of a task list recovers the
list. -/
theorem decode_encode (l : List Task) :
    decodeTaskList ((toV l).map taskVToJson) = some l := by
  induction l with
  | nil => rfl
  | cons t ts ih =>
    simp only [toV, List.map_cons, List.map_map, decodeTaskList,
      decodeTask_encode]
    simp only [toV, List.map_map] at ih
    rw [ih]

/-- Saving a task list and loading the saved blob yields a JSON value that
decodes back to the same list. -/
theorem load_save_roundtrip (l : List Task) :
    decodeTasks (loadTasks (some (JSONstringify (toV l)))) = some l := by
  show decodeTaskList ((toV l).map taskVToJson) = some l
  exact decode_encode l

/-- `saveTasks` never changes the in-memory array. -/
theorem saveTasks_st_tasks (q : Bool) (st : St) :
    (saveTasks q st).st.tasks = st.tasks := by
  cases q <;> rfl

/-- An element-wise invariant survives `List.modify` when the modification
preserves it. -/
theorem all_modify {p : α → Bool} {f : α → α}
    (hf : ∀ a, p a = true → p (f a) = true) :
    ∀ (l : List α) (i : Nat), l.all p = true → (l.modify f i).all p = true := by
  intro l
  induction l with
  | nil => intro i h; simp
  | cons a t ih =>
    intro i h
    rw [List.all_cons, Bool.and_eq_true] at h
    cases i with
    | zero =>
      rw [List.modify_zero_cons, List.all_cons, Bool.and_eq_true]
      exact ⟨hf a h.1, h.2⟩
    | succ n =>
      rw [List.modify_succ_cons, List.all_cons, Bool.and_eq_true]
      exact ⟨h.1, ih n h.2⟩

/-- An element-wise invariant survives insertion of an element satisfying
it. -/
theorem all_insertIdx {p : α → Bool} :
    ∀ (n : Nat) (a : α) (l : List α), l.all p = true → p a = true →
      (l.insertIdx n a).all p = true := by
  intro n
  induction n with
  | zero =>
    intro a l hl ha
    rw [List.insertIdx_zero, List.all_cons, Bool.and_eq_true]
    exact ⟨ha, hl⟩
  | succ n ih =>
    intro a l hl ha
    cases l with
    | nil => rw [List.insertIdx_succ_nil]; rfl
    | cons b t =>
      rw [List.all_cons, Bool.and_eq_true] at hl
      rw [List.insertIdx_succ_cons, List.all_cons, Bool.and_eq_true]
      exact ⟨hl.1, ih a t hl.2 ha⟩

/-- An element-wise invariant survives removal of an element. -/
theorem all_eraseIdx {p : α → Bool} (l : List α) (i : Nat)
    (h : l.all p = true) : (l.eraseIdx i).all p = true := by
  rw [List.all_eq_true] at h ⊢
  intro x hx
  exact h x (List.mem_of_mem_eraseIdx hx)

/-- Two modifications at the same index compose. -/
theorem modify_modify_same {f g : α → α} :
    ∀ (l : List α) (i : Nat),
      (l.modify f i).modify g i = l.modify (fun a => g (f a)) i := by
  intro l
  induction l with
  | nil => intro i; simp
  | cons a t ih =>
    intro i
    cases i with
    | zero => simp
    | succ n => simp [ih]

/-- Modifying with a function that fixes the element at the index is the
identity. -/
theorem modify_eq_self {f : α → α} :
    ∀ (l : List α) (i : Nat), (∀ a, l[i]? = some a → f a = a) →
      l.modify f i = l := by
  intro l
  induction l with
  | nil => intro i _; simp
  | cons a t ih =>
    intro i h
    cases i with
    | zero => simp [h a (by simp)]
    | succ n =>
      simp only [List.modify_succ_cons, List.cons.injEq, true_and]
      exact ih n fun x hx => h x (by simpa using hx)

/-- Modifying at an index holding a known element is a `set`. -/
theorem modify_eq_set_of_getElem? {f : α → α} :
    ∀ (l : List α) (i : Nat) (a : α), l[i]? = some a →
      l.modify f i = l.set i (f a) := by
  intro l
  induction l with
  | nil => intro i a h; simp at h
  | cons b t ih =>
    intro i a h
    cases i with
    | zero =>
      simp only [List.getElem?_cons_zero, Option.some.injEq] at h
      simp [h]
    | succ n =>
      simp only [List.getElem?_cons_succ] at h
      simp [ih n a h]

/-- Modifying twice at one index with an idempotent function equals
modifying once. -/
theorem modify_idem {f : α → α} (hf : ∀ a, f (f a) = f a) :
    ∀ (l : List α) (i : Nat), (l.modify f i).modify f i = l.modify f i := by
  intro l i
  rw [modify_modify_same]
  congr 1
  funext a
  exact hf a

/-- C1: with both indices in range and distinct, `handleDrop` removes the
task at the dragged index, reinserts it at the target index of the
post-removal list (a classic array move), and persists the resulting
array. -/
theorem reorder_valid_is_move (l : List TaskV) (so : Option Blob) (d t : Nat)
    (hd : d < l.length) (ht : t < l.length) (hne : d ≠ t) :
    handleDrop false (some d) t ⟨l, so⟩ =
      ⟨⟨(l.eraseIdx d).insertIdx t l[d],
        some (JSONstringify ((l.eraseIdx d).insertIdx t l[d]))⟩,
       true, false⟩ := by
  have hmin : min t (l.eraseIdx d).length = t := by
    rw [List.length_eraseIdx_of_lt hd]
    exact min_eq_left (Nat.le_pred_of_lt ht)
  simp only [handleDrop, if_neg hne, List.getElem?_eq_getElem hd, hmin]
  rfl

/-- Witness for C1: reorder(0, 2) on the list `[A, B, C]` yields
`[B, C, A]` (a move, not a swap), and the moved list is persisted. -/
theorem reorder_valid_is_move_witness :
    (0 : Nat) < 3 ∧ (2 : Nat) < 3 ∧ (0 : Nat) ≠ 2 ∧
    (handleDrop false (some 0) 2
        ⟨[TaskV.task ⟨"A", false, "t"⟩, TaskV.task ⟨"B", false, "t"⟩,
          TaskV.task ⟨"C", false, "t"⟩], none⟩).st.tasks =
      [TaskV.task ⟨"B", false, "t"⟩, TaskV.task ⟨"C", false, "t"⟩,
       TaskV.task ⟨"A", false, "t"⟩] ∧
    (handleDrop false (some 0) 2
        ⟨[TaskV.task ⟨"A", false, "t"⟩, TaskV.task ⟨"B", false, "t"⟩,
          TaskV.task ⟨"C", false, "t"⟩], none⟩).saved = true := by
  have h := reorder_valid_is_move
    [TaskV.task ⟨"A", false, "t"⟩, TaskV.task ⟨"B", false, "t"⟩,
     TaskV.task ⟨"C", false, "t"⟩] none 0 2
    (by decide) (by decide) (by decide)
  refine ⟨by decide, by decide, by decide, ?_, ?_⟩ <;>
    first
    | (rw [h]; decide)
    | rw [h]

/-- C2 counterexample: on the one-element list `[A]`, a drop with recorded
dragged index 1 (out of range) and target 0 is not a no-op: the splice pair
inserts the JavaScript `undefined` at the front of the array and the result
is persisted. -/
theorem reorder_outofrange_cex :
    (handleDrop false (some 1) 0
        ⟨[TaskV.task ⟨"A", false, "t"⟩], none⟩).st.tasks ≠
      [TaskV.task ⟨"A", false, "t"⟩] ∧
    (handleDrop false (some 1) 0
        ⟨[TaskV.task ⟨"A", false, "t"⟩], none⟩).st.tasks =
      [TaskV.undefined, TaskV.task ⟨"A", false, "t"⟩] ∧
    (handleDrop false (some 1) 0
        ⟨[TaskV.task ⟨"A", false, "t"⟩], none⟩).saved = true := by
  refine ⟨by decide, by decide, by decide⟩

/-- C2 amended: a drop with no recorded drag source, or whose dragged index
equals the target, performs no mutation and no persist; but a drop whose
dragged index is out of range (and differs from the target) mutates the
list -- it inserts an `undefined` placeholder at the (clamped) target
position -- and persists the result. -/
theorem reorder_guards (q : Bool) :
    (∀ (t : Nat) (st : St), handleDrop q none t st = ⟨st, false, false⟩) ∧
    (∀ (d : Nat) (st : St), handleDrop q (some d) d st = ⟨st, false, false⟩) ∧
    (∀ (l : List TaskV) (so : Option Blob) (d t : Nat),
       l.length ≤ d → d ≠ t →
       handleDrop false (some d) t ⟨l, so⟩ =
         ⟨⟨l.insertIdx (min t l.length) TaskV.undefined,
           some (JSONstringify (l.insertIdx (min t l.length) TaskV.undefined))⟩,
          true, false⟩) := by
  refine ⟨fun t st => rfl, fun d st => by simp [handleDrop], ?_⟩
  intro l so d t hlen hne
  have hget : l[d]? = none := by
    rw [List.getElem?_eq_none_iff]
    exact hlen
  have herase : l.eraseIdx d = l := List.eraseIdx_of_length_le hlen
  simp only [handleDrop, if_neg hne, hget, herase]
  rfl

/-- Witness for C2 (amended): a same-index drop is a pure no-op, and on
`[A]` the out-of-range drop from index 1 to index 0 produces
`[undefined, A]` and persists it. -/
theorem reorder_guards_witness :
    handleDrop false (some 0) 0 ⟨[TaskV.task ⟨"A", false, "t"⟩], none⟩ =
      ⟨⟨[TaskV.task ⟨"A", false, "t"⟩], none⟩, false, false⟩ ∧
    (1 ≤ ([TaskV.task ⟨"A", false, "t"⟩] : List TaskV).length → True) ∧
    handleDrop false (some 1) 0 ⟨[TaskV.task ⟨"A", false, "t"⟩], none⟩ =
      ⟨⟨([TaskV.task ⟨"A", false, "t"⟩] : List TaskV).insertIdx
          (min 0 ([TaskV.task ⟨"A", false, "t"⟩] : List TaskV).length)
          TaskV.undefined,
        some (JSONstringify
          (([TaskV.task ⟨"A", false, "t"⟩] : List TaskV).insertIdx
            (min 0 ([TaskV.task ⟨"A", false, "t"⟩] : List TaskV).length)
            TaskV.undefined))⟩,
       true, false⟩ :=
  ⟨(reorder_guards false).2.1 0 ⟨[TaskV.task ⟨"A", false, "t"⟩], none⟩,
   fun _ => trivial,
   (reorder_guards false).2.2 [TaskV.task ⟨"A", false, "t"⟩] none 1 0
     (by decide) (by decide)⟩

/-- C3 counterexample: the blob `"5"` is present and parses as JSON, but is
not a valid task-list encoding; `loadTasks` yields the parsed number, not an
empty list. -/
theorem load_nonlist_cex :
    decodeTasks (JValue.num 5) = none ∧
    loadTasks (some (Blob.json (JValue.num 5))) = JValue.num 5 ∧
    loadTasks (some (Blob.json (JValue.num 5))) ≠ tasksToJson (toV []) ∧
    decodeTasks (loadTasks (some (Blob.json (JValue.num 5)))) ≠
      some ([] : List Task) := by
  refine ⟨rfl, rfl, fun h => ?_, fun h => ?_⟩
  · exact JValue.noConfusion h
  · exact Option.noConfusion h

/-- C3 amended: `loadTasks` yields an empty list when the blob is absent or
when `JSON.parse` fails on it (no error surfaces in either case, thanks to
the try/catch); but a blob that parses as JSON is returned as-is, without
being validated as a task-list encoding. -/
theorem load_tolerant :
    loadTasks none = JValue.arr [] ∧
    (∀ s : String, loadTasks (some (Blob.garbage s)) = JValue.arr []) ∧
    (∀ v : JValue, loadTasks (some (Blob.json v)) = v) :=
  ⟨rfl, fun _ => rfl, fun _ => rfl⟩

/-- C5: persisting any task list with `saveTasks` and then loading the
stored blob reproduces an equal list -- same text, completed flag and
createdAt, in the same order. -/
theorem persist_load_roundtrip (l : List Task) (so : Option Blob) :
    decodeTasks (loadTasks (saveTasks false ⟨toV l, so⟩).st.stored) =
      some l := by
  have h : (saveTasks false ⟨toV l, so⟩).st.stored =
      some (JSONstringify (toV l)) := rfl
  rw [h]
  exact load_save_roundtrip l

/-- C4: hydrating from a blob that was persisted from a list with no blank
texts reproduces exactly that list, and every mutating store operation
preserves the invariant that no task in the array has an empty or
whitespace-only text. -/
theorem store_ops_preserve_noblank :
    (∀ l : List Task, invNoBlank l = true →
       decodeTasks (loadTasks (some (JSONstringify (toV l)))) = some l) ∧
    (∀ (q : Bool) (op : StoreOp) (st : St), invNoBlankV st.tasks = true →
       invNoBlankV ((applyOp q op st).st.tasks) = true) := by
  constructor
  · intro l _
    exact load_save_roundtrip l
  · intro q op st h
    cases op with
    | add now input =>
      simp only [applyOp, addTask]
      by_cases hb : jsTrim input = ""
      · simpa [hb] using h
      · rw [if_neg hb, saveTasks_st_tasks]
        simp only [invNoBlankV, List.all_append, Bool.and_eq_true]
        refine ⟨h, ?_⟩
        simp [taskVOk, jsTrim_idem, hb]
    | remove i =>
      simp only [applyOp, removeClick, saveTasks_st_tasks]
      exact all_eraseIdx _ _ h
    | setCompleted i v =>
      simp only [applyOp, checkboxChange, saveTasks_st_tasks]
      refine all_modify (fun a ha => ?_) _ _ h
      cases a with
      | task t => simpa [taskVOk, setCompletedV] using ha
      | undefined => rfl
    | editText i raw =>
      simp only [applyOp, editCommit]
      by_cases hb : jsTrim raw = ""
      · simpa [hb] using h
      · rw [if_neg hb, saveTasks_st_tasks]
        refine all_modify (fun a _ => ?_) _ _ h
        cases a <;> simp [taskVOk, setTextV, jsTrim_idem, hb]
    | reorder dragged target =>
      simp only [applyOp]
      cases dragged with
      | none => exact h
      | some d =>
        by_cases hdt : d = target
        · simpa [handleDrop, hdt] using h
        · simp only [handleDrop, if_neg hdt, saveTasks_st_tasks]
          have hmoved : taskVOk (match st.tasks[d]? with
              | some v => v
              | none => TaskV.undefined) = true := by
            cases hget : st.tasks[d]? with
            | none => rfl
            | some v =>
              exact (List.all_eq_true.mp h) v (List.getElem?_mem hget)
          exact all_insertIdx _ _ _ (all_eraseIdx _ _ h) hmoved
    | clearAll =>
      simp only [applyOp, deleteAllTasks, saveTasks_st_tasks]
      rfl

/-- Witness for C4: the invariant holds of a sample list, survives a load
of its persisted blob, and survives an `add` of text that trims to
non-empty. -/
theorem store_ops_preserve_noblank_witness :
    invNoBlank [(⟨"A", false, "t"⟩ : Task)] = true ∧
    decodeTasks (loadTasks (some (JSONstringify (toV [⟨"A", false, "t"⟩])))) =
      some [(⟨"A", false, "t"⟩ : Task)] ∧
    invNoBlankV [] = true ∧
    invNoBlankV ((applyOp false (StoreOp.add "t0" " hi ") ⟨[], none⟩).st.tasks)
      = true :=
  ⟨by decide, store_ops_preserve_noblank.1 [⟨"A", false, "t"⟩] (by decide),
   by decide,
   store_ops_preserve_noblank.2 false (StoreOp.add "t0" " hi ") ⟨[], none⟩
     (by decide)⟩

/-- C6: `addTask` is a no-op (no mutation, no save, no error) when the
input trims to empty; otherwise it appends one task carrying the trimmed
text, `completed = false` and the current time, and persists the full
list -- so the length grows by exactly one. -/
theorem addTask_spec :
    (∀ (q : Bool) (now input : String) (st : St), jsTrim input = "" →
       addTask q now input st = ⟨st, false, false⟩) ∧
    (∀ (now input : String) (st : St), jsTrim input ≠ "" →
       addTask false now input st =
         ⟨⟨st.tasks ++ [TaskV.task ⟨jsTrim input, false, now⟩],
           some (JSONstringify
             (st.tasks ++ [TaskV.task ⟨jsTrim input, false, now⟩]))⟩,
          true, false⟩ ∧
       (addTask false now input st).st.tasks.length = st.tasks.length + 1) := by
  constructor
  · intro q now input st h
    simp [addTask, h]
  · intro now input st h
    constructor
    · simp [addTask, h, saveTasks]
    · simp [addTask, h, saveTasks]

/-- Witness for C6: adding `"   "` is a no-op on the empty store; adding
`" hi "` grows the list from length 0 to length 1. -/
theorem addTask_spec_witness :
    jsTrim "   " = "" ∧
    addTask false "t0" "   " ⟨[], none⟩ = ⟨⟨[], none⟩, false, false⟩ ∧
    jsTrim " hi " ≠ "" ∧
    (addTask false "t0" " hi " ⟨[], none⟩).st.tasks.length =
      ([] : List TaskV).length + 1 :=
  ⟨by decide, addTask_spec.1 false "t0" "   " ⟨[], none⟩ (by decide),
   by decide, (addTask_spec.2 "t0" " hi " ⟨[], none⟩ (by decide)).2⟩

/-- C7: removing at an in-range index deletes exactly the element at that
index (the prefix before it and the suffix after it are kept in order) and
shrinks the length by one; removing at an out-of-range index leaves the
list unchanged. -/
theorem removeClick_spec :
    (∀ (l : List TaskV) (so : Option Blob) (i : Nat), i < l.length →
       (removeClick false i ⟨l, so⟩).st.tasks = l.take i ++ l.drop (i + 1) ∧
       (removeClick false i ⟨l, so⟩).st.tasks.length + 1 = l.length) ∧
    (∀ (q : Bool) (l : List TaskV) (so : Option Blob) (i : Nat),
       l.length ≤ i → (removeClick q i ⟨l, so⟩).st.tasks = l) := by
  constructor
  · intro l so i h
    constructor
    · simp only [removeClick, saveTasks_st_tasks]
      exact List.eraseIdx_eq_take_drop_succ l i
    · simp only [removeClick, saveTasks_st_tasks]
      rw [List.length_eraseIdx_of_lt h]
      omega
  · intro q l so i h
    simp only [removeClick, saveTasks_st_tasks]
    exact List.eraseIdx_of_length_le h

/-- Witness for C7: removing index 0 from `[A, B]` leaves `[B]` with length
1; removing index 5 leaves `[A, B]` unchanged. -/
theorem removeClick_spec_witness :
    (0 : Nat) < 2 ∧
    (removeClick false 0
        ⟨[TaskV.task ⟨"A", false, "t"⟩, TaskV.task ⟨"B", false, "t"⟩],
         none⟩).st.tasks =
      ([TaskV.task ⟨"A", false, "t"⟩, TaskV.task ⟨"B", false, "t"⟩] :
        List TaskV).take 0 ++
      ([TaskV.task ⟨"A", false, "t"⟩, TaskV.task ⟨"B", false, "t"⟩] :
        List TaskV).drop 1 ∧
    (removeClick false 0
        ⟨[TaskV.task ⟨"A", false, "t"⟩, TaskV.task ⟨"B", false, "t"⟩],
         none⟩).st.tasks.length + 1 = 2 ∧
    (removeClick false 5
        ⟨[TaskV.task ⟨"A", false, "t"⟩, TaskV.task ⟨"B", false, "t"⟩],
         none⟩).st.tasks =
      [TaskV.task ⟨"A", false, "t"⟩, TaskV.task ⟨"B", false, "t"⟩] := by
  have h1 := removeClick_spec.1
    [TaskV.task ⟨"A", false, "t"⟩, TaskV.task ⟨"B", false, "t"⟩] none 0
    (by decide)
  have h2 := removeClick_spec.2 false
    [TaskV.task ⟨"A", false, "t"⟩, TaskV.task ⟨"B", false, "t"⟩] none 5
    (by decide)
  exact ⟨by decide, h1.1, h1.2, h2⟩

/-- C8: committing an edit whose text trims to empty changes nothing and
does not save; committing a non-empty edit replaces the task's text in
place with the trimmed value, keeps its completed flag and its createdAt,
and saves. -/
theorem editCommit_spec :
    (∀ (q : Bool) (i : Nat) (raw : String) (st : St), jsTrim raw = "" →
       editCommit q i raw st = ⟨st, false, false⟩) ∧
    (∀ (i : Nat) (raw : String) (l : List TaskV) (so : Option Blob)
       (t : Task), jsTrim raw ≠ "" → l[i]? = some (TaskV.task t) →
       (editCommit false i raw ⟨l, so⟩).st.tasks =
         l.set i (TaskV.task ⟨jsTrim raw, t.completed, t.createdAt⟩) ∧
       (editCommit false i raw ⟨l, so⟩).saved = true) := by
  constructor
  · intro q i raw st h
    simp [editCommit, h]
  · intro i raw l so t h hget
    constructor
    · simp only [editCommit, if_neg h, saveTasks_st_tasks]
      exact modify_eq_set_of_getElem? l i (TaskV.task t) hget
    · simp [editCommit, h, saveTasks]

/-- Witness for C8: on the singleton list containing task `A`, an edit to
`"  "` is a no-op and an edit to `" New "` stores the trimmed text
`"New"` while keeping `completed` and `createdAt`. -/
theorem editCommit_spec_witness :
    jsTrim "  " = "" ∧
    editCommit false 0 "  " ⟨[TaskV.task ⟨"A", false, "t"⟩], none⟩ =
      ⟨⟨[TaskV.task ⟨"A", false, "t"⟩], none⟩, false, false⟩ ∧
    jsTrim " New " ≠ "" ∧
    (editCommit false 0 " New "
        ⟨[TaskV.task ⟨"A", false, "t"⟩], none⟩).st.tasks =
      [TaskV.task ⟨"New", false, "t"⟩] := by
  have h1 := editCommit_spec.1 false 0 "  "
    ⟨[TaskV.task ⟨"A", false, "t"⟩], none⟩ (by decide)
  have h2 := (editCommit_spec.2 0 " New " [TaskV.task ⟨"A", false, "t"⟩]
    none ⟨"A", false, "t"⟩ (by decide) (by decide)).1
  refine ⟨by decide, h1, by decide, ?_⟩
  rw [h2]
  decide

/-- C9: under a persistence write failure (quota full), every store
operation leaves the in-memory array exactly as the successful run would
(the mutation is kept, not rolled back), writes nothing to storage, and
raises an error precisely when the persist step was reached; without the
failure no error is raised. -/
theorem persist_failure_keeps_mutation (op : StoreOp) (st : St) :
    (applyOp true op st).st.tasks = (applyOp false op st).st.tasks ∧
    (applyOp true op st).st.stored = st.stored ∧
    (applyOp true op st).err = (applyOp true op st).saved ∧
    (applyOp false op st).err = false := by
  cases op with
  | add now input =>
    by_cases hb : jsTrim input = "" <;>
      simp [applyOp, addTask, saveTasks, hb]
  | remove i => simp [applyOp, removeClick, saveTasks]
  | setCompleted i v => simp [applyOp, checkboxChange, saveTasks]
  | editText i raw =>
    by_cases hb : jsTrim raw = "" <;>
      simp [applyOp, editCommit, saveTasks, hb]
  | reorder dragged target =>
    cases dragged with
    | none => simp [applyOp, handleDrop]
    | some d =>
      by_cases hdt : d = target <;>
        simp [applyOp, handleDrop, saveTasks, hdt]
  | clearAll => simp [applyOp, deleteAllTasks, saveTasks]

/-- C10: toggling a task's completed flag to true and back to false
restores the original list when the flag started false, and repeating the
same `setCompleted` call any positive number of times gives the same state
as calling it once. -/
theorem setCompleted_toggle_and_idem :
    (∀ (l : List TaskV) (so : Option Blob) (i : Nat) (t : Task),
       l[i]? = some (TaskV.task t) → t.completed = false →
       (checkboxChange false i false
         (checkboxChange false i true ⟨l, so⟩).st).st.tasks = l) ∧
    (∀ (q : Bool) (i : Nat) (v : Bool) (st : St) (n : Nat), 1 ≤ n →
       (fun s => (checkboxChange q i v s).st)^[n] st =
         (checkboxChange q i v st).st) := by
  constructor
  · intro l so i t hget hc
    have step : ∀ (v : Bool) (s : St),
        (checkboxChange false i v s).st.tasks =
          s.tasks.modify (setCompletedV v) i := fun v s => by
      simp [checkboxChange, saveTasks_st_tasks]
    rw [step, step]
    rw [modify_modify_same]
    apply modify_eq_self
    intro a ha
    have haeq : a = TaskV.task t := by
      rw [hget] at ha
      exact (Option.some.inj ha).symm
    subst haeq
    obtain ⟨tx, tc, tcr⟩ := t
    simp only [Task.completed] at hc
    subst hc
    rfl
  · intro q i v st n hn
    have hsCV : ∀ a, setCompletedV v (setCompletedV v a) = setCompletedV v a :=
      fun a => by cases a <;> rfl
    have gg : ∀ s : St,
        (checkboxChange q i v (checkboxChange q i v s).st).st =
          (checkboxChange q i v s).st := by
      intro s
      cases q <;> simp [checkboxChange, saveTasks, modify_idem hsCV]
    have hiter : ∀ m : Nat,
        (fun s => (checkboxChange q i v s).st)^[m + 1] st =
          (checkboxChange q i v st).st := by
      intro m
      induction m with
      | zero => rfl
      | succ k ih =>
        rw [Function.iterate_succ_apply', ih]
        exact gg st
    obtain ⟨m, rfl⟩ : ∃ m, n = m + 1 := ⟨n - 1, by omega⟩
    exact hiter m

/-- Witness for C10: on the singleton list containing the not-completed
task `A`, toggling completion on then off at index 0 restores the list,
and three repetitions of the same toggle equal one. -/
theorem setCompleted_toggle_and_idem_witness :
    ([TaskV.task ⟨"A", false, "t"⟩] : List TaskV)[0]? =
      some (TaskV.task ⟨"A", false, "t"⟩) ∧
    (checkboxChange false 0 false
        (checkboxChange false 0 true
          ⟨[TaskV.task ⟨"A", false, "t"⟩], none⟩).st).st.tasks =
      [TaskV.task ⟨"A", false, "t"⟩] ∧
    (1 : Nat) ≤ 3 ∧
    (fun s => (checkboxChange false 0 true s).st)^[3]
        ⟨[TaskV.task ⟨"A", false, "t"⟩], none⟩ =
      (checkboxChange false 0 true
        ⟨[TaskV.task ⟨"A", false, "t"⟩], none⟩).st :=
  ⟨by decide,
   setCompleted_toggle_and_idem.1 [TaskV.task ⟨"A", false, "t"⟩] none 0
     ⟨"A", false, "t"⟩ (by decide) rfl,
   by decide,
   setCompleted_toggle_and_idem.2 false 0 true
     ⟨[TaskV.task ⟨"A", false, "t"⟩], none⟩ 3 (by decide)⟩

end Todo
